import Mathlib

/-!
Verification of the notification-delivery core of the github-trend repository.

Python strings are embedded as lists of characters (`Str`), UTF-8 byte
lengths via `Char.utf8Size`, machine integers as `Int`/`Nat`.  The SQLite
push ledger is embedded as an explicit association list of
(repo_name, pushed day number) pairs; ISO date-string comparison in SQL
agrees with integer day order, so days are embedded as `Int`.  The WeCom
webhook transport is embedded as a transcript of responses consumed in
order, together with the list of JSON payloads actually posted.
-/

namespace GithubTrend

/-- A Python `str` embedded as its sequence of code points. -/
abbrev Str := List Char

/-- Length in bytes of the UTF-8 encoding of a string (`len(s.encode("utf-8"))`). -/
def utf8Len (s : Str) : Nat := (s.map Char.utf8Size).sum

/-- Python `s.strip()` (leading and trailing whitespace removed). -/
def pyStrip (s : Str) : Str :=
  ((s.dropWhile Char.isWhitespace).reverse.dropWhile Char.isWhitespace).reverse

/-- Python `s.lower()` (ASCII case folding; the markers involved are ASCII or Chinese). -/
def pyLower (s : Str) : Str := s.map Char.toLower

/-- Python substring test `needle in haystack`. -/
def strContains : Str → Str → Bool
  | [], n => n.isEmpty
  | c :: t, n => List.isPrefixOf n (c :: t) || strContains t n

/-- The binary search of `WeComNotifier._truncate_by_bytes` (wecom_notifier.py:352-359):
largest code-point prefix whose UTF-8 encoding fits in `maxBytes`. -/
def truncLoop (text : Str) (maxBytes : Nat) (left right : Nat) : Nat :=
  if _h : left < right then
    if utf8Len (text.take ((left + right + 1) / 2)) ≤ maxBytes then
      truncLoop text maxBytes ((left + right + 1) / 2) right
    else
      truncLoop text maxBytes left ((left + right + 1) / 2 - 1)
  else left
termination_by right - left
decreasing_by
  · omega
  · omega

/-- `WeComNotifier._truncate_by_bytes` (wecom_notifier.py:344-360). -/
def truncate_by_bytes (text : Str) (max_bytes : Int) : Str :=
  if max_bytes ≤ 0 then []
  else if (utf8Len text : Int) ≤ max_bytes then text
  else text.take (truncLoop text max_bytes.toNat 0 text.length)

/-- `WeComNotifier.PUSH_MARKDOWN_LIMIT` (wecom_notifier.py:16). -/
def PUSH_MARKDOWN_LIMIT : Int := 3800

/-- `WeComNotifier.RETRY_SHRINK_LIMIT` (wecom_notifier.py:17). -/
def RETRY_SHRINK_LIMIT : Int := 2500

/-- `WeComNotifier.SUMMARY_CONTENT_LIMIT` (wecom_notifier.py:18). -/
def SUMMARY_CONTENT_LIMIT : Int := 2600

/-- The truncation-notice suffix used by `_fit_markdown_limit` (wecom_notifier.py:336). -/
def fitTruncSuffix : Str := "\n\n（内容过长，已截断）".data

/-- `WeComNotifier._fit_markdown_limit` (wecom_notifier.py:331-342). -/
def fit_markdown_limit (content : Str) : Str :=
  if (utf8Len content : Int) ≤ PUSH_MARKDOWN_LIMIT then content
  else
    if (utf8Len fitTruncSuffix : Int) ≥ PUSH_MARKDOWN_LIMIT then
      truncate_by_bytes fitTruncSuffix PUSH_MARKDOWN_LIMIT
    else
      truncate_by_bytes content (PUSH_MARKDOWN_LIMIT - (utf8Len fitTruncSuffix : Int)) ++
        fitTruncSuffix

/-- The retry-notice suffix used by `_shrink_for_retry` (wecom_notifier.py:267). -/
def retryShrinkSuffix : Str := "\n\n（首次推送失败，已自动精简重发）".data

/-- `WeComNotifier._shrink_for_retry` (wecom_notifier.py:261-272). -/
def shrink_for_retry (content : Str) : Str :=
  if (utf8Len content : Int) ≤ RETRY_SHRINK_LIMIT then content
  else
    if RETRY_SHRINK_LIMIT - (utf8Len retryShrinkSuffix : Int) ≤ 0 then
      truncate_by_bytes content RETRY_SHRINK_LIMIT
    else
      truncate_by_bytes content (RETRY_SHRINK_LIMIT - (utf8Len retryShrinkSuffix : Int)) ++
        retryShrinkSuffix

/-- The shortening-notice suffix used by `_prepare_summary_content` (wecom_notifier.py:254). -/
def summaryTruncSuffix : Str := "\n\n（总结较长，已自动精简）".data

/-- The `content` local of `_prepare_summary_content` (wecom_notifier.py:250):
`summary.strip() if summary and summary.strip() else "（生成总结失败）"`. -/
def summaryContentBase (summary : Str) : Str :=
  if summary.isEmpty || (pyStrip summary).isEmpty then "（生成总结失败）".data
  else pyStrip summary

/-- `WeComNotifier._prepare_summary_content` (wecom_notifier.py:248-259). -/
def prepare_summary_content (summary : Str) : Str :=
  if (utf8Len (summaryContentBase summary) : Int) ≤ SUMMARY_CONTENT_LIMIT then
    summaryContentBase summary
  else
    if SUMMARY_CONTENT_LIMIT - (utf8Len summaryTruncSuffix : Int) ≤ 0 then
      truncate_by_bytes (summaryContentBase summary) SUMMARY_CONTENT_LIMIT
    else
      truncate_by_bytes (summaryContentBase summary)
          (SUMMARY_CONTENT_LIMIT - (utf8Len summaryTruncSuffix : Int)) ++
        summaryTruncSuffix

/-! Basic lemmas about UTF-8 lengths and the byte-budget truncation. -/

theorem utf8Len_append (a b : Str) : utf8Len (a ++ b) = utf8Len a + utf8Len b := by
  simp [utf8Len]

theorem utf8Size_le_four (c : Char) : c.utf8Size ≤ 4 := by
  simp only [Char.utf8Size]
  split_ifs <;> omega

theorem utf8Len_take_le_take (text : Str) {i j : Nat} (hij : i ≤ j) :
    utf8Len (text.take i) ≤ utf8Len (text.take j) := by
  have h := List.take_add text i (j - i)
  rw [Nat.add_sub_cancel' hij] at h
  rw [h]
  simp [utf8Len, List.sum_append]

theorem utf8Len_take_le (text : Str) (i : Nat) : utf8Len (text.take i) ≤ utf8Len text := by
  conv_rhs => rw [← List.take_append_drop i text]
  rw [utf8Len_append]
  omega

/-- Combined specification of the binary search: the returned index keeps the byte
budget, and it is the largest index (up to the text length) that does. -/
theorem truncLoop_spec (text : Str) (maxBytes : Nat) :
    ∀ n left right, right - left = n →
    utf8Len (text.take left) ≤ maxBytes →
    (∀ k, k ≤ text.length → utf8Len (text.take k) ≤ maxBytes → k ≤ right) →
    utf8Len (text.take (truncLoop text maxBytes left right)) ≤ maxBytes ∧
    ∀ k, k ≤ text.length → utf8Len (text.take k) ≤ maxBytes →
      k ≤ truncLoop text maxBytes left right := by
  intro n
  induction n using Nat.strong_induction_on with
  | _ n ih =>
    intro left right hn h1 h2
    rw [truncLoop]
    split
    · next hlr =>
      split
      · next hmid =>
        exact ih (right - (left + right + 1) / 2) (by omega) _ _ rfl hmid h2
      · next hmid =>
        refine ih ((left + right + 1) / 2 - 1 - left) (by omega) _ _ rfl h1 ?_
        intro k hk hkb
        by_contra hgt
        push_neg at hgt
        have hmle : (left + right + 1) / 2 ≤ k := by omega
        have := utf8Len_take_le_take text hmle
        omega
    · next hlr =>
      exact ⟨h1, fun k hk hkb => by have := h2 k hk hkb; omega⟩

theorem truncate_by_bytes_take (text : Str) (b : Int) :
    ∃ n, truncate_by_bytes text b = text.take n := by
  unfold truncate_by_bytes
  split
  · exact ⟨0, by simp⟩
  · split
    · exact ⟨text.length, by simp⟩
    · exact ⟨_, rfl⟩

theorem truncate_by_bytes_le (text : Str) (b : Int) (hb : 0 ≤ b) :
    (utf8Len (truncate_by_bytes text b) : Int) ≤ b := by
  unfold truncate_by_bytes
  split
  · next h => simp [utf8Len]; omega
  · split
    · next h => exact h
    · next h0 h =>
      have hspec := (truncLoop_spec text b.toNat (text.length - 0) 0 text.length rfl
        (by simp [utf8Len]) (fun k hk _ => hk)).1
      have : (utf8Len (text.take (truncLoop text b.toNat 0 text.length)) : Int) ≤ (b.toNat : Int) :=
        Int.ofNat_le.mpr hspec
      omega

/-- When the text overflows a positive budget, the truncation keeps at least
`budget - 3` bytes (the next code point would overflow, and a code point is
at most 4 bytes). -/
theorem truncate_by_bytes_lower (text : Str) (b : Int) (hb : 0 < b)
    (ht : b < (utf8Len text : Int)) :
    b - 3 ≤ (utf8Len (truncate_by_bytes text b) : Int) := by
  unfold truncate_by_bytes
  split
  · omega
  · split
    · omega
    · next h0 h =>
      have hspec := truncLoop_spec text b.toNat (text.length - 0) 0 text.length rfl
        (by simp [utf8Len]) (fun k hk _ => hk)
      generalize hL : truncLoop text b.toNat 0 text.length = L at hspec ⊢
      have hLlen : L < text.length := by
        by_contra hge
        push_neg at hge
        have hmono := utf8Len_take_le_take text hge
        rw [List.take_length] at hmono
        have := hspec.1
        have := utf8Len_take_le text L
        omega
      -- The next index would overflow the budget.
      have hnext : ¬ utf8Len (text.take (L + 1)) ≤ b.toNat := by
        intro hcon
        have := hspec.2 (L + 1) (by omega) hcon
        omega
      obtain ⟨c, hc⟩ : ∃ c, text[L]? = some c := by
        cases hg : text[L]? with
        | none =>
          rw [List.getElem?_eq_none_iff] at hg
          omega
        | some c => exact ⟨c, rfl⟩
      have htakesucc : text.take (L + 1) = text.take L ++ [c] := by
        rw [List.take_succ, hc]
        rfl
      have hsize : utf8Len (text.take (L + 1)) = utf8Len (text.take L) + c.utf8Size := by
        rw [htakesucc, utf8Len_append]
        simp [utf8Len]
      have hc4 := utf8Size_le_four c
      omega

/-- C1 helper: byte length of the truncation-notice suffix. -/
theorem utf8Len_fitTruncSuffix : utf8Len fitTruncSuffix = 32 := by decide

/-- C1 helper: byte length of the retry-notice suffix. -/
theorem utf8Len_retryShrinkSuffix : utf8Len retryShrinkSuffix = 50 := by decide

theorem fit_markdown_limit_le (content : Str) :
    utf8Len (fit_markdown_limit content) ≤ 3800 := by
  unfold fit_markdown_limit
  split
  · next h => simp only [PUSH_MARKDOWN_LIMIT] at h; omega
  · split
    · next h =>
      rw [utf8Len_fitTruncSuffix] at h
      simp only [PUSH_MARKDOWN_LIMIT] at h
      omega
    · next h =>
      rw [utf8Len_append]
      have ht := truncate_by_bytes_le content
        (PUSH_MARKDOWN_LIMIT - (utf8Len fitTruncSuffix : Int))
        (by rw [utf8Len_fitTruncSuffix]; simp [PUSH_MARKDOWN_LIMIT])
      rw [utf8Len_fitTruncSuffix] at ht ⊢
      simp only [PUSH_MARKDOWN_LIMIT] at ht ⊢
      omega

theorem fit_markdown_limit_id (content : Str) (h : utf8Len content ≤ 3800) :
    fit_markdown_limit content = content := by
  unfold fit_markdown_limit
  rw [if_pos]
  simp only [PUSH_MARKDOWN_LIMIT]
  omega

/-- C1: `_truncate_by_bytes` returns a code-point prefix within the byte budget,
`_fit_markdown_limit` always lands within the 3800-byte WeCom ceiling, and it is
the identity for content already within the ceiling. -/
theorem C1_truncation_and_fit :
    (∀ (t : Str) (b : Int), 0 ≤ b →
      (∃ n, truncate_by_bytes t b = t.take n) ∧ (utf8Len (truncate_by_bytes t b) : Int) ≤ b) ∧
    (∀ t : Str, utf8Len (fit_markdown_limit t) ≤ 3800) ∧
    (∀ t : Str, utf8Len t ≤ 3800 → fit_markdown_limit t = t) :=
  ⟨fun t b hb => ⟨truncate_by_bytes_take t b, truncate_by_bytes_le t b hb⟩,
   fit_markdown_limit_le,
   fit_markdown_limit_id⟩

/-- C1 witness: the general theorem applied at a concrete text and budget. -/
theorem C1_truncation_and_fit_witness :
    ((∃ n, truncate_by_bytes "héllo wörld".data 6 = "héllo wörld".data.take n) ∧
      (utf8Len (truncate_by_bytes "héllo wörld".data 6) : Int) ≤ 6) ∧
    utf8Len (fit_markdown_limit "short".data) ≤ 3800 ∧
    fit_markdown_limit "short".data = "short".data :=
  ⟨(C1_truncation_and_fit.1 "héllo wörld".data 6 (by norm_num)),
   C1_truncation_and_fit.2.1 "short".data,
   C1_truncation_and_fit.2.2 "short".data (by decide)⟩

/-! Lemmas about the single shrink-and-retry pass. -/

theorem shrink_for_retry_id (m : Str) (h : (utf8Len m : Int) ≤ 2500) :
    shrink_for_retry m = m := by
  unfold shrink_for_retry
  rw [if_pos]
  simp only [RETRY_SHRINK_LIMIT]
  omega

theorem shrink_for_retry_le (m : Str) (h : 2500 < (utf8Len m : Int)) :
    utf8Len (shrink_for_retry m) ≤ 2500 := by
  unfold shrink_for_retry
  split
  · next hle => simp only [RETRY_SHRINK_LIMIT] at hle; omega
  · split
    · next hle =>
      rw [utf8Len_retryShrinkSuffix] at hle
      simp only [RETRY_SHRINK_LIMIT] at hle
      omega
    · next hle =>
      rw [utf8Len_append]
      have ht := truncate_by_bytes_le m
        (RETRY_SHRINK_LIMIT - (utf8Len retryShrinkSuffix : Int))
        (by rw [utf8Len_retryShrinkSuffix]; simp [RETRY_SHRINK_LIMIT])
      rw [utf8Len_retryShrinkSuffix] at ht ⊢
      simp only [RETRY_SHRINK_LIMIT] at ht ⊢
      omega

theorem shrink_for_retry_ne (m : Str) (h : 2500 < (utf8Len m : Int)) :
    shrink_for_retry m ≠ m := by
  intro heq
  have := shrink_for_retry_le m h
  rw [heq] at this
  omega

theorem shrink_for_retry_has_suffix (m : Str) (h : 2500 < (utf8Len m : Int)) :
    ∃ p, shrink_for_retry m = p ++ retryShrinkSuffix := by
  unfold shrink_for_retry
  split
  · next hle => simp only [RETRY_SHRINK_LIMIT] at hle; omega
  · split
    · next hle =>
      rw [utf8Len_retryShrinkSuffix] at hle
      simp only [RETRY_SHRINK_LIMIT] at hle
      omega
    · exact ⟨_, rfl⟩

/-! The transport.  A send posts one JSON payload and consumes one response of the
webhook transcript; a missing response behaves like a network error. -/

/-- Minimal JSON values, enough for the WeCom payload envelope. -/
inductive Json where
  | str : Str → Json
  | num : Int → Json
  | obj : List (Str × Json) → Json

/-- The payload built by `WeComNotifier._send_markdown_once` (wecom_notifier.py:65-70). -/
def mkPayload (content : Str) : Json :=
  Json.obj [("msgtype".data, Json.str "markdown".data),
            ("markdown".data, Json.obj [("content".data, Json.str content)])]

/-- First key of a JSON object (projection used to compare envelopes). -/
def firstKey : Json → Str
  | .obj ((k, _) :: _) => k
  | _ => []

/-- One webhook response: a transport-level failure, or a JSON body with `errcode`. -/
inductive ApiResp where
  | netError : ApiResp
  | api : Int → ApiResp

/-- The transport transcript: pending responses, and the payloads POSTed so far. -/
structure SendState where
  responses : List ApiResp
  sent : List Json

/-- `WeComNotifier._send_markdown_once` (wecom_notifier.py:63-79): posts the payload,
then returns `(success, api_result)` where success means `errcode == 0` and a
transport-level error yields `(False, None)`. -/
def send_markdown_once (st : SendState) (content : Str) : (Bool × Option Int) × SendState :=
  match st.responses with
  | [] => ((false, none), ⟨[], st.sent ++ [mkPayload content]⟩)
  | .netError :: rest => ((false, none), ⟨rest, st.sent ++ [mkPayload content]⟩)
  | .api errcode :: rest => ((errcode == 0, some errcode), ⟨rest, st.sent ++ [mkPayload content]⟩)

/-- `WeComNotifier.send_markdown` (wecom_notifier.py:29-61). -/
def send_markdown (st : SendState) (content : Str) : Bool × SendState :=
  let message := fit_markdown_limit content
  let r1 := send_markdown_once st message
  if r1.1.1 then (true, r1.2)
  else
    match r1.1.2 with
    | none => (false, r1.2)
    | some _ =>
      let shrunk_message := shrink_for_retry message
      if shrunk_message = message then (false, r1.2)
      else
        let r2 := send_markdown_once r1.2 shrunk_message
        (r2.1.1, r2.2)

/-- C4: per `send_markdown` call, a network error fails immediately with a single
transport call; an application rejection retries exactly once and only when the
fitted message exceeds the 2500-byte retry-shrink ceiling, the retried content
being at most 2500 bytes and carrying the distinct retry suffix; otherwise the
original failure is reported after a single call; never more than two calls. -/
theorem C4_send_markdown_error_handling (st : SendState) (content : Str) :
    (∀ rest, st.responses = .netError :: rest →
      send_markdown st content =
        (false, ⟨rest, st.sent ++ [mkPayload (fit_markdown_limit content)]⟩)) ∧
    (∀ c rest, st.responses = .api c :: rest → c ≠ 0 →
      (utf8Len (fit_markdown_limit content) ≤ 2500 →
        send_markdown st content =
          (false, ⟨rest, st.sent ++ [mkPayload (fit_markdown_limit content)]⟩)) ∧
      (2500 < utf8Len (fit_markdown_limit content) →
        (send_markdown st content).2.sent =
          st.sent ++ [mkPayload (fit_markdown_limit content),
                      mkPayload (shrink_for_retry (fit_markdown_limit content))] ∧
        utf8Len (shrink_for_retry (fit_markdown_limit content)) ≤ 2500 ∧
        (∃ p, shrink_for_retry (fit_markdown_limit content) = p ++ retryShrinkSuffix) ∧
        retryShrinkSuffix ≠ fitTruncSuffix ∧
        ((send_markdown st content).1 = true ↔ ∃ rest2, rest = .api 0 :: rest2))) ∧
    (send_markdown st content).2.sent.length ≤ st.sent.length + 2 := by
  refine ⟨?_, ?_, ?_⟩
  · intro rest hresp
    simp [send_markdown, send_markdown_once, hresp]
  · intro c rest hresp hc
    have hbeq : (c == 0) = false := by simpa using hc
    constructor
    · intro hle
      have hid := shrink_for_retry_id (fit_markdown_limit content) (by exact_mod_cast hle)
      simp [send_markdown, send_markdown_once, hresp, hbeq, hid]
    · intro hgt
      have hne := shrink_for_retry_ne (fit_markdown_limit content) (by exact_mod_cast hgt)
      refine ⟨?_, shrink_for_retry_le _ (by exact_mod_cast hgt),
        shrink_for_retry_has_suffix _ (by exact_mod_cast hgt), by decide, ?_⟩
      · cases rest with
        | nil => simp [send_markdown, send_markdown_once, hresp, hbeq, hne]
        | cons r rest2 =>
          cases r <;> simp [send_markdown, send_markdown_once, hresp, hbeq, hne]
      · cases rest with
        | nil => simp [send_markdown, send_markdown_once, hresp, hbeq, hne]
        | cons r rest2 =>
          cases r with
          | netError => simp [send_markdown, send_markdown_once, hresp, hbeq, hne]
          | api c2 =>
            simp only [send_markdown, send_markdown_once, hresp, hbeq, if_neg, hne, ite_false,
              Bool.false_eq_true, beq_iff_eq]
            constructor
            · intro h2
              exact ⟨rest2, by simp [h2]⟩
            · rintro ⟨rest3, hr⟩
              cases hr
              simp
  · rcases hresp : st.responses with _ | ⟨r, rest⟩
    · simp [send_markdown, send_markdown_once, hresp]
    · cases r with
      | netError => simp [send_markdown, send_markdown_once, hresp]
      | api c =>
        by_cases hc : (c == 0) = true
        · simp [send_markdown, send_markdown_once, hresp, hc]
        · rw [Bool.not_eq_true] at hc
          by_cases hsh : shrink_for_retry (fit_markdown_limit content) = fit_markdown_limit content
          · simp [send_markdown, send_markdown_once, hresp, hc, hsh]
          · cases rest with
            | nil => simp [send_markdown, send_markdown_once, hresp, hc, hsh]
            | cons r2 rest2 =>
              cases r2 <;> simp [send_markdown, send_markdown_once, hresp, hc, hsh]

theorem utf8Len_replicate (n : Nat) (c : Char) :
    utf8Len (List.replicate n c) = n * c.utf8Size := by
  induction n with
  | zero => simp [utf8Len]
  | succ k ih =>
    rw [List.replicate_succ]
    have : utf8Len (c :: List.replicate k c) = c.utf8Size + utf8Len (List.replicate k c) := by
      simp [utf8Len]
    rw [this, ih]
    ring

/-- C4 witness: a 3000-byte ASCII message, first response a rejection code, second
response a success: the shrink-retry succeeds after exactly two transport calls. -/
theorem C4_send_markdown_error_handling_witness :
    (send_markdown ⟨[.api 45002, .api 0], []⟩ (List.replicate 3000 'a')).1 = true ∧
    (send_markdown ⟨[.api 45002, .api 0], []⟩ (List.replicate 3000 'a')).2.sent.length = 2 := by
  have hlen : utf8Len (List.replicate 3000 'a') = 3000 := by
    rw [utf8Len_replicate]; rfl
  have hfit : fit_markdown_limit (List.replicate 3000 'a') = List.replicate 3000 'a' :=
    fit_markdown_limit_id _ (by omega)
  have h := (C4_send_markdown_error_handling ⟨[.api 45002, .api 0], []⟩
    (List.replicate 3000 'a')).2.1 45002 [.api 0] rfl (by omega)
  have hgt : 2500 < utf8Len (fit_markdown_limit (List.replicate 3000 'a')) := by
    rw [hfit]; omega
  obtain ⟨hsent, _, _, _, hiff⟩ := h.2 hgt
  refine ⟨hiff.mpr ⟨[], rfl⟩, ?_⟩
  rw [hsent]
  rfl

/-- The transport envelope exactly as the spec words it (key `"type"`); definition
follows the spec's words, for comparison with `mkPayload` from the source. -/
def specTransportEnvelope (content : Str) : Json :=
  Json.obj [("type".data, Json.str "markdown".data),
            ("markdown".data, Json.obj [("content".data, Json.str content)])]

/-- C9 counterexample: the payload actually posted does not match the spec's
`{ "type": "markdown", ... }` envelope — the source uses the key `"msgtype"`. -/
theorem C9_envelope_counterexample :
    mkPayload "x".data ≠ specTransportEnvelope "x".data := by
  intro h
  have hk := congrArg firstKey h
  simp only [mkPayload, specTransportEnvelope, firstKey] at hk
  exact absurd hk (by decide)

/-- C9 (amended): the posted envelope is `{ "msgtype": "markdown", "markdown":
{ "content": <string> } }`, every transport call posts exactly this payload, and
success is reported exactly when the response's `errcode` equals 0; a
transport-level error is reported as failure. -/
theorem C9_transport_envelope_and_success (st : SendState) (content : Str) :
    mkPayload content =
      Json.obj [("msgtype".data, Json.str "markdown".data),
                ("markdown".data, Json.obj [("content".data, Json.str content)])] ∧
    (send_markdown_once st content).2.sent = st.sent ++ [mkPayload content] ∧
    (∀ c rest, st.responses = .api c :: rest →
      ((send_markdown_once st content).1.1 = true ↔ c = 0)) ∧
    (∀ rest, st.responses = .netError :: rest →
      (send_markdown_once st content).1.1 = false) := by
  refine ⟨rfl, ?_, ?_, ?_⟩
  · rcases hresp : st.responses with _ | ⟨r, rest⟩
    · simp [send_markdown_once, hresp]
    · cases r <;> simp [send_markdown_once, hresp]
  · intro c rest hresp
    simp [send_markdown_once, hresp]
  · intro rest hresp
    simp [send_markdown_once, hresp]

/-- C9 witness: the amended statement applied on a concrete transcript. -/
theorem C9_transport_envelope_and_success_witness :
    (send_markdown_once ⟨[.api 0], []⟩ "hello".data).2.sent = [mkPayload "hello".data] ∧
    (send_markdown_once ⟨[.api 0], []⟩ "hello".data).1.1 = true := by
  have h := C9_transport_envelope_and_success ⟨[.api 0], []⟩ "hello".data
  refine ⟨by simpa using h.2.1, (h.2.2.1 0 [] rfl).mpr rfl⟩

/-! The push ledger (`daily_push_records` table, database.py).  Rows are
(repo_name, pushed day number); ISO date-string comparison in the SQL agrees
with integer day order. -/

/-- The `daily_push_records` table as a list of (repo_name, pushed_date) rows. -/
abbrev Ledger := List (Str × Int)

/-- `Database.save_daily_push_records` (database.py:182-193): `INSERT OR IGNORE`
of each (repo_name, pushed_date) pair. -/
def save_daily_push_records (ledger : Ledger) (repo_names : List Str) (pushed_date : Int) :
    Ledger :=
  repo_names.foldl
    (fun acc nm => if acc.contains (nm, pushed_date) then acc else acc ++ [(nm, pushed_date)])
    ledger

/-- `Database.get_recently_pushed_repo_names` (database.py:195-221): distinct repo
names with a pushed date in `[reference_date - (lookback_days - 1), reference_date]`,
or the empty set when `lookback_days < 1`. -/
def get_recently_pushed_repo_names (ledger : Ledger) (lookback_days : Int)
    (reference_date : Int) : List Str :=
  if lookback_days < 1 then []
  else
    ((ledger.filter
        (fun e => decide (reference_date - (lookback_days - 1) ≤ e.2 ∧ e.2 ≤ reference_date))).map
      Prod.fst).dedup

/-- C2: the ledger query returns exactly the identifiers recorded in the inclusive
window `[d - (n-1), d]`; an identifier recorded on day 10 is returned for reference
day 10 and 11 with a 7-day lookback but not for reference day 18; a lookback below
1 disables dedup. -/
theorem C2_ledger_window (ledger : Ledger) (lookback_days reference_date : Int) :
    (1 ≤ lookback_days → ∀ nm : Str,
      nm ∈ get_recently_pushed_repo_names ledger lookback_days reference_date ↔
        ∃ d, (nm, d) ∈ ledger ∧ reference_date - (lookback_days - 1) ≤ d ∧ d ≤ reference_date) ∧
    (lookback_days < 1 →
      get_recently_pushed_repo_names ledger lookback_days reference_date = []) ∧
    "x".data ∈ get_recently_pushed_repo_names (save_daily_push_records [] ["x".data] 10) 7 10 ∧
    "x".data ∈ get_recently_pushed_repo_names (save_daily_push_records [] ["x".data] 10) 7 11 ∧
    "x".data ∉ get_recently_pushed_repo_names (save_daily_push_records [] ["x".data] 10) 7 18 := by
  refine ⟨?_, ?_, by decide, by decide, by decide⟩
  · intro hlb nm
    rw [get_recently_pushed_repo_names, if_neg (by omega)]
    rw [List.mem_dedup, List.mem_map]
    constructor
    · rintro ⟨e, hmem, rfl⟩
      rw [List.mem_filter, decide_eq_true_eq] at hmem
      exact ⟨e.2, hmem.1, hmem.2.1, hmem.2.2⟩
    · rintro ⟨d, hd, h1, h2⟩
      exact ⟨(nm, d), List.mem_filter.mpr ⟨hd, by rw [decide_eq_true_eq]; exact ⟨h1, h2⟩⟩, rfl⟩
  · intro hlb
    rw [get_recently_pushed_repo_names, if_pos hlb]

/-- C2 witness: the window characterisation applied on a concrete ledger. -/
theorem C2_ledger_window_witness :
    "a".data ∈ get_recently_pushed_repo_names [("a".data, 3)] 7 9 :=
  ((C2_ledger_window [("a".data, 3)] 7 9).1 (by norm_num) "a".data).mpr
    ⟨3, by simp, by norm_num, by norm_num⟩

/-! Domain records (github_scraper.py / ai_filter.py dataclasses). -/

/-- `TrendingProject` (github_scraper.py:14-22). -/
structure TrendingProject where
  repo_name : Str
  description : Str
  language : Str
  url : Str
  stars : Int
  stars_growth : Int
  ranking : Int

/-- `FilterResult` (ai_filter.py:31-35). -/
structure FilterResult where
  is_ai_related : Bool
  reason : Str

/-- `RECENT_PUSH_LOOKBACK_DAYS` (main.py:16). -/
def RECENT_PUSH_LOOKBACK_DAYS : Int := 7

/-- `DAILY_PUSH_LIMIT` (main.py:15). -/
def DAILY_PUSH_LIMIT : Nat := 5

/-- `select_daily_projects_for_push` (main.py:209-222): filter out repos pushed in
the last 7 days, keep order, take the first 5. -/
def select_daily_projects_for_push (ai_projects : List (TrendingProject × FilterResult))
    (ledger : Ledger) (today : Int) : List (TrendingProject × FilterResult) :=
  let recent_pushed := get_recently_pushed_repo_names ledger RECENT_PUSH_LOOKBACK_DAYS today
  (ai_projects.filter (fun item => !(recent_pushed.contains item.1.repo_name))).take
    DAILY_PUSH_LIMIT

/-- C5: the selection has length at most 5, is an order-preserving subsequence of
the candidates, excludes every recently pushed identifier, and equals the first 5
elements of the pushed-filtered candidate list (no re-sorting). -/
theorem C5_select_daily_projects (ai_projects : List (TrendingProject × FilterResult))
    (ledger : Ledger) (today : Int) :
    (select_daily_projects_for_push ai_projects ledger today).length ≤ 5 ∧
    List.Sublist (select_daily_projects_for_push ai_projects ledger today) ai_projects ∧
    (∀ item ∈ select_daily_projects_for_push ai_projects ledger today,
      item.1.repo_name ∉
        get_recently_pushed_repo_names ledger RECENT_PUSH_LOOKBACK_DAYS today) ∧
    select_daily_projects_for_push ai_projects ledger today =
      (ai_projects.filter
        (fun item =>
          !((get_recently_pushed_repo_names ledger RECENT_PUSH_LOOKBACK_DAYS today).contains
              item.1.repo_name))).take 5 := by
  refine ⟨List.length_take_le _ _, ?_, ?_, rfl⟩
  · exact (List.take_sublist _ _).trans (List.filter_sublist _)
  · intro item hitem
    have hmem := List.take_subset _ _ hitem
    have hfilt := (List.mem_filter.mp hmem).2
    simp only [Bool.not_eq_true'] at hfilt
    intro hcontra
    rw [← List.elem_iff] at hcontra
    rw [List.contains] at hfilt
    rw [hcontra] at hfilt
    cases hfilt

/-! Substring toolkit for the Python `in` test. -/

theorem strContains_nil (h : Str) : strContains h [] = true := by
  cases h with
  | nil => rfl
  | cons c t => simp [strContains, List.isPrefixOf]

theorem isPrefixOf_append_self (a b : Str) : List.isPrefixOf a (a ++ b) = true := by
  induction a with
  | nil => simp [List.isPrefixOf]
  | cons c t ih => simp [List.isPrefixOf, ih]

theorem strContains_of_isPrefixOf {h n : Str} (hp : List.isPrefixOf n h = true) :
    strContains h n = true := by
  cases h with
  | nil =>
    cases n with
    | nil => rfl
    | cons c t => simp [List.isPrefixOf] at hp
  | cons c t => simp [strContains, hp]

theorem strContains_self (s : Str) : strContains s s = true := by
  have := isPrefixOf_append_self s []
  rw [List.append_nil] at this
  exact strContains_of_isPrefixOf this

theorem isPrefixOf_append_extend {m h : Str} (b : Str) (hp : List.isPrefixOf m h = true) :
    List.isPrefixOf m (h ++ b) = true := by
  induction h generalizing m with
  | nil =>
    cases m with
    | nil => simp [List.isPrefixOf]
    | cons c t => simp [List.isPrefixOf] at hp
  | cons c t ih =>
    cases m with
    | nil => simp [List.isPrefixOf]
    | cons c2 t2 =>
      simp only [List.isPrefixOf, Bool.and_eq_true] at hp ⊢
      exact ⟨hp.1, ih hp.2⟩

theorem strContains_append_left {a m : Str} (b : Str) (h : strContains a m = true) :
    strContains (a ++ b) m = true := by
  induction a with
  | nil =>
    simp only [strContains] at h
    rw [List.isEmpty_iff] at h
    subst h
    simpa using strContains_nil b
  | cons c t ih =>
    simp only [List.cons_append, strContains, Bool.or_eq_true] at h ⊢
    rcases h with h | h
    · exact Or.inl (isPrefixOf_append_extend b h)
    · exact Or.inr (ih h)

theorem strContains_append_right {b m : Str} (a : Str) (h : strContains b m = true) :
    strContains (a ++ b) m = true := by
  induction a with
  | nil => exact h
  | cons c t ih =>
    simp only [List.cons_append, strContains, Bool.or_eq_true]
    exact Or.inr ih

theorem isPrefixOf_append_cons {m a b : Str} {c : Char}
    (hp : List.isPrefixOf m (a ++ c :: b) = true) :
    List.isPrefixOf m a = true ∨ c ∈ m := by
  induction a generalizing m with
  | nil =>
    cases m with
    | nil => exact Or.inl rfl
    | cons x t =>
      simp only [List.nil_append, List.isPrefixOf, Bool.and_eq_true, beq_iff_eq] at hp
      exact Or.inr (by rw [hp.1]; exact List.mem_cons_self _ _)
  | cons y a2 ih =>
    cases m with
    | nil => exact Or.inl rfl
    | cons x t =>
      simp only [List.cons_append, List.isPrefixOf, Bool.and_eq_true] at hp
      rcases ih hp.2 with h | h
      · exact Or.inl (by simp only [List.isPrefixOf, Bool.and_eq_true]; exact ⟨hp.1, h⟩)
      · exact Or.inr (List.mem_cons_of_mem _ h)

/-- An occurrence of `m` in `a ++ c :: b` lies in `a`, lies in `b`, or covers `c`. -/
theorem strContains_append_cons_split {a b m : Str} {c : Char}
    (h : strContains (a ++ c :: b) m = true) :
    strContains a m = true ∨ strContains b m = true ∨ c ∈ m := by
  induction a with
  | nil =>
    simp only [List.nil_append, strContains, Bool.or_eq_true] at h
    rcases h with h | h
    · rcases isPrefixOf_append_cons (a := []) (by simpa using h) with h2 | h2
      · exact Or.inl (strContains_of_isPrefixOf h2)
      · exact Or.inr (Or.inr h2)
    · exact Or.inr (Or.inl h)
  | cons y a2 ih =>
    simp only [List.cons_append, strContains, Bool.or_eq_true] at h
    rcases h with h | h
    · rcases isPrefixOf_append_cons (a := y :: a2) (by simpa using h) with h2 | h2
      · exact Or.inl (strContains_of_isPrefixOf h2)
      · exact Or.inr (Or.inr h2)
    · rcases ih h with h2 | h2 | h2
      · exact Or.inl (by simp only [strContains, Bool.or_eq_true]; exact Or.inr h2)
      · exact Or.inr (Or.inl h2)
      · exact Or.inr (Or.inr h2)

theorem strContains_append_cons_none {a b m : Str} {c : Char}
    (ha : strContains a m = false) (hb : strContains b m = false) (hc : c ∉ m) :
    strContains (a ++ c :: b) m = false := by
  by_contra hcon
  rw [Bool.not_eq_false] at hcon
  rcases strContains_append_cons_split hcon with h | h | h
  · rw [ha] at h; cases h
  · rw [hb] at h; cases h
  · exact hc h

/-- Python `sep.join(xs)`. -/
def pyJoin (sep : Str) : List Str → Str
  | [] => []
  | s :: rest =>
    match rest with
    | [] => s
    | _ :: _ => s ++ sep ++ pyJoin sep rest

theorem pyLower_append (a b : Str) : pyLower (a ++ b) = pyLower a ++ pyLower b :=
  List.map_append _ a b

theorem pyLower_pyJoin (c : Char) (xs : List Str) (hc : c.toLower = c) :
    pyLower (pyJoin [c] xs) = pyJoin [c] (xs.map pyLower) := by
  induction xs with
  | nil => rfl
  | cons s rest ih =>
    cases rest with
    | nil => rfl
    | cons s2 rest2 =>
      show pyLower (s ++ [c] ++ pyJoin [c] (s2 :: rest2)) =
        pyLower s ++ [c] ++ pyJoin [c] (List.map pyLower (s2 :: rest2))
      rw [pyLower_append, pyLower_append, ih]
      have hcl : pyLower [c] = [c] := by simp [pyLower, hc]
      rw [hcl]

theorem pyJoin_clean {m : Str} {c : Char} (hc : c ∉ m) (xs : List Str)
    (hxs : ∀ s ∈ xs, strContains s m = false) :
    strContains (pyJoin [c] xs) m = false ∨ m = [] := by
  induction xs with
  | nil =>
    cases m with
    | nil => exact Or.inr rfl
    | cons y t => exact Or.inl rfl
  | cons s rest ih =>
    cases rest with
    | nil => exact Or.inl (hxs s (List.mem_singleton.mpr rfl))
    | cons s2 rest2 =>
      rcases ih (fun x hx => hxs x (List.mem_cons_of_mem _ hx)) with h | h
      · refine Or.inl ?_
        have hs := hxs s (List.mem_cons_self _ _)
        have heq : s ++ [c] ++ pyJoin [c] (s2 :: rest2) = s ++ c :: pyJoin [c] (s2 :: rest2) := by
          simp
        show strContains (s ++ [c] ++ pyJoin [c] (s2 :: rest2)) m = false
        rw [heq]
        exact strContains_append_cons_none hs h hc
      · exact Or.inr h

theorem pyJoin_contains_mem {nm : Str} (sep : Str) (xs : List Str) (hmem : nm ∈ xs) :
    strContains (pyJoin sep xs) nm = true := by
  induction xs with
  | nil => cases hmem
  | cons s rest ih =>
    cases rest with
    | nil =>
      rw [List.mem_singleton] at hmem
      subst hmem
      exact strContains_self nm
    | cons s2 rest2 =>
      rcases List.mem_cons.mp hmem with h | h
      · subst h
        show strContains (nm ++ sep ++ pyJoin sep (s2 :: rest2)) nm = true
        rw [List.append_assoc]
        exact strContains_append_left _ (strContains_self nm)
      · show strContains (s ++ sep ++ pyJoin sep (s2 :: rest2)) nm = true
        exact strContains_append_right _ (ih h)

theorem pyJoin_single_eq_nil {sep x : Str} {xs : List Str}
    (hsep : sep ≠ []) (h : pyJoin sep (x :: xs) = []) : x = [] ∧ xs = [] := by
  cases xs with
  | nil => exact ⟨h, rfl⟩
  | cons y ys =>
    have h2 : x ++ sep ++ pyJoin sep (y :: ys) = [] := h
    rcases List.append_eq_nil.mp h2 with ⟨h3, -⟩
    rcases List.append_eq_nil.mp h3 with ⟨-, h4⟩
    exact absurd h4 hsep

theorem pyStrip_eq_nil {s : Str} (h : pyStrip s = []) : ∀ c ∈ s, c.isWhitespace = true := by
  unfold pyStrip at h
  rw [List.reverse_eq_nil_iff, List.dropWhile_eq_nil_iff] at h
  intro c hc
  have hsplit := List.takeWhile_append_dropWhile (p := Char.isWhitespace) (l := s)
  rw [← hsplit] at hc
  rcases List.mem_append.mp hc with hc2 | hc2
  · exact List.mem_takeWhile_imp hc2
  · exact h c (by rwa [List.mem_reverse])

/-! The AI-filter summary composer (ai_filter.py). -/

/-- `SUMMARY_BLOCKLIST` (ai_filter.py:11-20). -/
def SUMMARY_BLOCKLIST : List Str :=
  ["using-superpowers".data, "skill.md".data, "/users/".data, "/private/tmp".data,
   "沙箱".data, "无法读取".data, "权限".data, "技能文件".data]

/-- `AIFilter._is_invalid_summary` (ai_filter.py:206-212). -/
def is_invalid_summary (text : Str) : Bool :=
  if text.isEmpty || (pyStrip text).isEmpty then true
  else SUMMARY_BLOCKLIST.any (fun m => strContains (pyLower text) m)

/-- Fixed template part of the fallback summary before the inserted titles
(ai_filter.py:218-219; Python concatenates the adjacent literals). -/
def dailyFallbackHead : Str :=
  "## 每日趋势总结\n\n今日热点主要集中在 AI Agent、LLM 应用与工程工具链，代表项目包括：".data

/-- Fixed template part of the fallback summary after the inserted titles
(ai_filter.py:219-223). -/
def dailyFallbackTail : Str :=
  "。\n\n🚀 **搜狐业务价值分析**\n\n- 搜索引擎：可优先验证查询改写、结构化抽取、结果摘要等能力。\n- 推荐系统：可用于内容标签补全、冷启动特征生成与候选重排增强。\n- AI基础设施：建议推进统一 LLM 网关、推理成本优化与多模型容灾路由。".data

/-- The `top_names` local of `_build_fallback_summary` (ai_filter.py:216):
`"、".join(first 3 repo names) or "今日上榜项目"`. -/
def dailyTopNames (projects : List (TrendingProject × FilterResult)) : Str :=
  if (pyJoin "、".data ((projects.take 3).map fun pr => pr.1.repo_name)).isEmpty then
    "今日上榜项目".data
  else pyJoin "、".data ((projects.take 3).map fun pr => pr.1.repo_name)

/-- `AIFilter._build_fallback_summary` (ai_filter.py:214-224). -/
def build_fallback_summary (projects : List (TrendingProject × FilterResult)) : Str :=
  dailyFallbackHead ++ dailyTopNames projects ++ dailyFallbackTail

/-- `AIFilter.generate_daily_summary` (ai_filter.py:148-204), with the text
generator abstracted to its outcome: `none` models a raised exception, `some s`
the generated message content. -/
def generate_daily_summary (llm_output : Option Str)
    (projects : List (TrendingProject × FilterResult)) : Str :=
  if projects.isEmpty then []
  else
    match llm_output with
    | none => build_fallback_summary projects
    | some content =>
      if is_invalid_summary (pyStrip content) then build_fallback_summary projects
      else pyStrip content

/-- Template part of the fallback head before its final fullwidth colon. -/
def dailyFallbackHeadBody : Str :=
  "## 每日趋势总结\n\n今日热点主要集中在 AI Agent、LLM 应用与工程工具链，代表项目包括".data

/-- Template part of the fallback tail after its leading fullwidth stop. -/
def dailyFallbackTailBody : Str :=
  "\n\n🚀 **搜狐业务价值分析**\n\n- 搜索引擎：可优先验证查询改写、结构化抽取、结果摘要等能力。\n- 推荐系统：可用于内容标签补全、冷启动特征生成与候选重排增强。\n- AI基础设施：建议推进统一 LLM 网关、推理成本优化与多模型容灾路由。".data

/-- Blocklist markers do not occur in the fixed fallback template, do not contain
the separator glyphs around the inserted titles, and are nonempty. -/
theorem blocklist_template_facts :
    ∀ m ∈ SUMMARY_BLOCKLIST,
      strContains (pyLower dailyFallbackHeadBody) m = false ∧
      strContains (pyLower dailyFallbackTailBody) m = false ∧
      strContains (pyLower "今日上榜项目".data) m = false ∧
      '、' ∉ m ∧ '。' ∉ m ∧ '：' ∉ m ∧ m ≠ [] := by decide

/-- If none of the first-3 titles contains a blocklist marker (case-folded),
neither does the whole fallback summary. -/
theorem build_fallback_summary_no_marker (projects : List (TrendingProject × FilterResult))
    (hclean : ∀ nm ∈ (projects.take 3).map (fun pr => pr.1.repo_name),
      ∀ m ∈ SUMMARY_BLOCKLIST, strContains (pyLower nm) m = false) :
    ∀ m ∈ SUMMARY_BLOCKLIST,
      strContains (pyLower (build_fallback_summary projects)) m = false := by
  intro m hm
  obtain ⟨hA, hB, hC, hsep1, hsep2, hsep3, hmne⟩ := blocklist_template_facts m hm
  have hhead : dailyFallbackHead = dailyFallbackHeadBody ++ ['：'] := by decide
  have htail : dailyFallbackTail = '。' :: dailyFallbackTailBody := by decide
  rw [build_fallback_summary, hhead, htail, pyLower_append, pyLower_append, pyLower_append]
  have h1 : pyLower ['：'] = ['：'] := by decide
  have h2 : pyLower ('。' :: dailyFallbackTailBody) = '。' :: pyLower dailyFallbackTailBody := by
    have : ('。' : Char).toLower = '。' := by decide
    simp [pyLower, this]
  rw [h1, h2]
  have hre :
      pyLower dailyFallbackHeadBody ++ ['：'] ++ pyLower (dailyTopNames projects) ++
          ('。' :: pyLower dailyFallbackTailBody) =
        pyLower dailyFallbackHeadBody ++
          '：' :: (pyLower (dailyTopNames projects) ++ '。' :: pyLower dailyFallbackTailBody) := by
    simp
  rw [hre]
  refine strContains_append_cons_none hA ?_ hsep3
  refine strContains_append_cons_none ?_ hB hsep2
  rw [dailyTopNames]
  split
  · exact hC
  · have hsd : "、".data = ['、'] := by decide
    rw [hsd, pyLower_pyJoin '、' _ (by decide)]
    have hxs : ∀ s ∈ (((projects.take 3).map fun pr => pr.1.repo_name).map pyLower),
        strContains s m = false := by
      intro s hs
      obtain ⟨nm, hnm, rfl⟩ := List.mem_map.mp hs
      exact hclean nm hnm m hm
    rcases pyJoin_clean hsep1 (((projects.take 3).map fun pr => pr.1.repo_name).map pyLower)
        hxs with h | h
    · exact h
    · exact absurd h hmne

/-- C6 counterexample: for a blocklisted generated text and a batch whose first
title is itself a blocklist marker, the composer does return the fallback, but the
fallback CONTAINS a blocklist substring — refuting the claim's "contains none of
the blocklist substrings". -/
theorem C6_fallback_counterexample :
    is_invalid_summary (pyStrip "请先阅读沙箱中的技能文件".data) = true ∧
    generate_daily_summary (some "请先阅读沙箱中的技能文件".data)
        [(⟨"skill.md".data, [], [], [], 1, 1, 1⟩, ⟨true, "r".data⟩)] =
      build_fallback_summary [(⟨"skill.md".data, [], [], [], 1, 1, 1⟩, ⟨true, "r".data⟩)] ∧
    strContains
      (pyLower (generate_daily_summary (some "请先阅读沙箱中的技能文件".data)
        [(⟨"skill.md".data, [], [], [], 1, 1, 1⟩, ⟨true, "r".data⟩)]))
      "skill.md".data = true := by
  set_option maxRecDepth 4000 in
  refine ⟨by decide, by decide, by decide⟩

/-- C6 (amended): a blank-or-blocklisted generated summary is discarded for the
deterministic fallback, which carries the daily-summary heading, the
business-value heading with its fixed three-bullet section, and names the first 3
item titles; and the fallback contains no blocklist substring provided the named
titles themselves contain none (the counterexample shows a marker inside a title
reappears in the fallback). -/
theorem C6_invalid_summary_fallback (text : Str)
    (projects : List (TrendingProject × FilterResult))
    (hne : projects ≠ []) (hinv : is_invalid_summary (pyStrip text) = true) :
    generate_daily_summary (some text) projects = build_fallback_summary projects ∧
    strContains (build_fallback_summary projects) "## 每日趋势总结".data = true ∧
    strContains (build_fallback_summary projects)
      "🚀 **搜狐业务价值分析**\n\n- 搜索引擎：可优先验证查询改写、结构化抽取、结果摘要等能力。\n- 推荐系统：可用于内容标签补全、冷启动特征生成与候选重排增强。\n- AI基础设施：建议推进统一 LLM 网关、推理成本优化与多模型容灾路由。".data = true ∧
    (∀ nm ∈ (projects.take 3).map (fun pr => pr.1.repo_name),
      strContains (build_fallback_summary projects) nm = true) ∧
    ((∀ nm ∈ (projects.take 3).map (fun pr => pr.1.repo_name),
        ∀ m ∈ SUMMARY_BLOCKLIST, strContains (pyLower nm) m = false) →
      ∀ m ∈ SUMMARY_BLOCKLIST,
        strContains (pyLower (build_fallback_summary projects)) m = false) := by
  have hiempty : projects.isEmpty = false := by
    cases projects with
    | nil => exact absurd rfl hne
    | cons p t => rfl
  refine ⟨?_, ?_, ?_, ?_, build_fallback_summary_no_marker projects⟩
  · simp [generate_daily_summary, hiempty, hinv]
  · rw [build_fallback_summary]
    exact strContains_append_left _
      (strContains_append_left _ (by decide : strContains dailyFallbackHead
        "## 每日趋势总结".data = true))
  · rw [build_fallback_summary]
    exact strContains_append_right _ (by decide)
  · intro nm hnm
    by_cases hje :
        (pyJoin "、".data ((projects.take 3).map fun pr => pr.1.repo_name)).isEmpty = true
    · rw [List.isEmpty_iff] at hje
      have hnmnil : nm = [] := by
        rcases hlist : (projects.take 3).map (fun pr => pr.1.repo_name) with _ | ⟨x, xs⟩
        · rw [hlist] at hnm; cases hnm
        · rw [hlist] at hje hnm
          obtain ⟨hx, hxs⟩ := pyJoin_single_eq_nil (by decide) hje
          subst hxs
          rw [List.mem_singleton] at hnm
          rw [hnm, hx]
      rw [hnmnil]
      exact strContains_nil _
    · have htop : dailyTopNames projects =
          pyJoin "、".data ((projects.take 3).map fun pr => pr.1.repo_name) := by
        rw [dailyTopNames, if_neg hje]
      have hj := pyJoin_contains_mem "、".data _ hnm
      rw [build_fallback_summary, htop]
      exact strContains_append_left _ (strContains_append_right _ hj)

/-- C6 witness: the amended statement applied on a concrete invalid text and a
concrete clean batch. -/
theorem C6_invalid_summary_fallback_witness :
    generate_daily_summary (some "权限不足".data)
        [(⟨"octo/agent-kit".data, [], [], [], 1, 1, 1⟩, ⟨true, "r".data⟩)] =
      build_fallback_summary [(⟨"octo/agent-kit".data, [], [], [], 1, 1, 1⟩, ⟨true, "r".data⟩)] ∧
    ∀ m ∈ SUMMARY_BLOCKLIST,
      strContains
        (pyLower (build_fallback_summary
          [(⟨"octo/agent-kit".data, [], [], [], 1, 1, 1⟩, ⟨true, "r".data⟩)])) m = false := by
  have h := C6_invalid_summary_fallback "权限不足".data
    [(⟨"octo/agent-kit".data, [], [], [], 1, 1, 1⟩, ⟨true, "r".data⟩)]
    (List.cons_ne_nil _ _) (by decide)
  exact ⟨h.1, h.2.2.2.2 (by decide)⟩

/-! The per-item highlight normalizer (wecom_notifier.py). -/

/-- `WeComNotifier._truncate_text` (wecom_notifier.py:362-367). -/
def truncate_text (text : Str) (max_length : Nat) : Str :=
  if text.length ≤ max_length then text else text.take max_length ++ "...".data

/-- The `fallback_markers` tuple of `_normalize_ai_highlight` (wecom_notifier.py:280-284). -/
def fallback_markers : List Str :=
  ["keyword-based detection".data, "keyword based detection".data, "llm unavailable".data]

/-- Description keywords mapped to the agent/assistant topic (wecom_notifier.py:287). -/
def agentKeywords : List Str :=
  ["agent".data, "assistant".data, "copilot".data, "workflow".data]

/-- Description keywords mapped to the LLM-application topic (wecom_notifier.py:289). -/
def llmKeywords : List Str :=
  ["llm".data, "gpt".data, "chat".data, "rag".data, "prompt".data]

/-- Description keywords mapped to the vision/multimodal topic (wecom_notifier.py:291). -/
def visionKeywords : List Str :=
  ["vision".data, "image".data, "video".data, "multimodal".data]

/-- The canned rewritten highlight (wecom_notifier.py:296). -/
def highlightSentence (area : Str) : Str :=
  "基于项目描述中的关键词判定，该项目与 ".data ++ area ++
    "相关，建议后续结合 README 做进一步复核。".data

/-- `WeComNotifier._normalize_ai_highlight` (wecom_notifier.py:274-298). -/
def normalize_ai_highlight (reason description : Str) : Str :=
  if (pyStrip reason).isEmpty ||
      fallback_markers.any (fun mk => strContains (pyLower (pyStrip reason)) mk) then
    highlightSentence
      (if agentKeywords.any (fun kw => strContains (pyLower description) kw) then
        "AI Agent/智能助手方向".data
      else if llmKeywords.any (fun kw => strContains (pyLower description) kw) then
        "LLM 应用方向".data
      else if visionKeywords.any (fun kw => strContains (pyLower description) kw) then
        "多模态/视觉方向".data
      else "AI 应用或工具方向".data)
  else pyStrip reason

/-- C7 counterexample: the keyword-fallback reason the filter itself produces
(ai_filter.py:117, `基于项目描述中的关键词判定（LLM暂不可用）`) matches none of the
normalizer's fallback markers, so it is rendered verbatim — the highlight IS the
raw placeholder text, refuting the claim for this very input. -/
theorem C7_highlight_counterexample :
    normalize_ai_highlight "基于项目描述中的关键词判定（LLM暂不可用）".data
        "an autonomous ai agent".data =
      "基于项目描述中的关键词判定（LLM暂不可用）".data ∧
    truncate_text (normalize_ai_highlight "基于项目描述中的关键词判定（LLM暂不可用）".data
        "an autonomous ai agent".data) 120 =
      "基于项目描述中的关键词判定（LLM暂不可用）".data := by
  exact ⟨by decide, by decide⟩

/-- C7 (amended): a reason that is blank or contains one of the three fallback
markers (`keyword-based detection`, `keyword based detection`, `llm unavailable`,
case-insensitively) is rewritten to the canned localized sentence whose topic area
is inferred from the description keywords (agent-like, then LLM-like, then
vision-like, else generic), and the rewritten highlight is never the raw reason;
the Chinese keyword-fallback reason produced by the filter matches no marker and
is rendered unchanged (see the counterexample). -/
theorem C7_highlight_rewrite (reason description : Str)
    (h : (pyStrip reason).isEmpty = true ∨
      fallback_markers.any (fun mk => strContains (pyLower (pyStrip reason)) mk) = true) :
    (agentKeywords.any (fun kw => strContains (pyLower description) kw) = true →
      normalize_ai_highlight reason description =
        highlightSentence "AI Agent/智能助手方向".data) ∧
    (agentKeywords.any (fun kw => strContains (pyLower description) kw) = false →
      llmKeywords.any (fun kw => strContains (pyLower description) kw) = true →
      normalize_ai_highlight reason description = highlightSentence "LLM 应用方向".data) ∧
    (agentKeywords.any (fun kw => strContains (pyLower description) kw) = false →
      llmKeywords.any (fun kw => strContains (pyLower description) kw) = false →
      visionKeywords.any (fun kw => strContains (pyLower description) kw) = true →
      normalize_ai_highlight reason description = highlightSentence "多模态/视觉方向".data) ∧
    (agentKeywords.any (fun kw => strContains (pyLower description) kw) = false →
      llmKeywords.any (fun kw => strContains (pyLower description) kw) = false →
      visionKeywords.any (fun kw => strContains (pyLower description) kw) = false →
      normalize_ai_highlight reason description = highlightSentence "AI 应用或工具方向".data) ∧
    normalize_ai_highlight reason description ≠ pyStrip reason := by
  have hcond : ((pyStrip reason).isEmpty ||
      fallback_markers.any (fun mk => strContains (pyLower (pyStrip reason)) mk)) = true := by
    rcases h with h | h <;> simp [h]
  have hsent : ∀ a ∈ ["AI Agent/智能助手方向".data, "LLM 应用方向".data,
      "多模态/视觉方向".data, "AI 应用或工具方向".data],
      highlightSentence a ≠ [] ∧
        ∀ mk ∈ fallback_markers, strContains (pyLower (highlightSentence a)) mk = false := by
    decide
  have hform : ∃ a ∈ ["AI Agent/智能助手方向".data, "LLM 应用方向".data,
      "多模态/视觉方向".data, "AI 应用或工具方向".data],
      normalize_ai_highlight reason description = highlightSentence a := by
    rw [normalize_ai_highlight, if_pos hcond]
    split
    · exact ⟨_, by simp, rfl⟩
    · split
      · exact ⟨_, by simp, rfl⟩
      · split
        · exact ⟨_, by simp, rfl⟩
        · exact ⟨_, by simp, rfl⟩
  refine ⟨?_, ?_, ?_, ?_, ?_⟩
  · intro ha
    rw [normalize_ai_highlight, if_pos hcond, if_pos ha]
  · intro ha hl
    rw [normalize_ai_highlight, if_pos hcond, if_neg (by simp [ha]), if_pos hl]
  · intro ha hl hv
    rw [normalize_ai_highlight, if_pos hcond, if_neg (by simp [ha]), if_neg (by simp [hl]),
      if_pos hv]
  · intro ha hl hv
    rw [normalize_ai_highlight, if_pos hcond, if_neg (by simp [ha]), if_neg (by simp [hl]),
      if_neg (by simp [hv])]
  · intro heq
    obtain ⟨a, hamem, hae⟩ := hform
    obtain ⟨hne, hnomk⟩ := hsent a hamem
    rcases h with h | h
    · rw [List.isEmpty_iff] at h
      rw [hae, h] at heq
      exact hne heq
    · rw [List.any_eq_true] at h
      obtain ⟨mk, hmkmem, hmk⟩ := h
      have hps : pyStrip reason = highlightSentence a := by rw [← heq, hae]
      rw [hps, hnomk mk hmkmem] at hmk
      cases hmk

/-- C7 witness: a blank reason with an LLM-flavoured description is rewritten to
the LLM-topic sentence and differs from the raw (blank) reason. -/
theorem C7_highlight_rewrite_witness :
    normalize_ai_highlight "".data "a rag pipeline for search".data =
      highlightSentence "LLM 应用方向".data ∧
    normalize_ai_highlight "".data "a rag pipeline for search".data ≠ pyStrip "".data := by
  have h := C7_highlight_rewrite "".data "a rag pipeline for search".data (Or.inl (by decide))
  exact ⟨h.2.1 (by decide) (by decide), h.2.2.2.2⟩

/-! Date rendering (`report_date.strftime("%Y-%m-%d")`). -/

/-- A calendar date as rendered by `strftime("%Y-%m-%d")`. -/
structure Date where
  year : Nat
  month : Nat
  day : Nat

/-- Decimal digit characters of a natural number. -/
def natDigits (n : Nat) : Str :=
  if _h : n < 10 then [Char.ofNat (48 + n)]
  else natDigits (n / 10) ++ [Char.ofNat (48 + n % 10)]
termination_by n
decreasing_by omega

/-- Left zero-padding to a field width. -/
def padZeroTo (w : Nat) (s : Str) : Str := List.replicate (w - s.length) '0' ++ s

/-- `report_date.strftime("%Y-%m-%d")`. -/
def strftimeYmd (d : Date) : Str :=
  padZeroTo 4 (natDigits d.year) ++ "-".data ++ padZeroTo 2 (natDigits d.month) ++ "-".data ++
    padZeroTo 2 (natDigits d.day)

theorem digitChar_facts {m : Nat} (hm : m < 10) :
    (Char.ofNat (48 + m)).utf8Size = 1 ∧ (Char.ofNat (48 + m)).toNat < 128 := by
  interval_cases m <;> exact ⟨by decide, by decide⟩

theorem natDigits_ascii (n : Nat) :
    utf8Len (natDigits n) = (natDigits n).length ∧ ∀ c ∈ natDigits n, c.toNat < 128 := by
  induction n using Nat.strong_induction_on with
  | _ n ih =>
    rw [natDigits]
    split
    · next h =>
      obtain ⟨h1, h2⟩ := digitChar_facts h
      refine ⟨by simp [utf8Len, h1], ?_⟩
      intro c hc
      rw [List.mem_singleton] at hc
      rw [hc]
      exact h2
    · next h =>
      obtain ⟨ih1, ih2⟩ := ih (n / 10) (by omega)
      obtain ⟨h1, h2⟩ := digitChar_facts (Nat.mod_lt n (by omega))
      constructor
      · rw [utf8Len_append, ih1]
        simp [utf8Len, h1]
      · intro c hc
        rcases List.mem_append.mp hc with hc2 | hc2
        · exact ih2 c hc2
        · rw [List.mem_singleton] at hc2
          rw [hc2]
          exact h2

theorem natDigits_length_le : ∀ k n : Nat, n < 10 ^ k → (natDigits n).length ≤ max 1 k := by
  intro k
  induction k with
  | zero =>
    intro n hn
    have : n = 0 := by omega
    subst this
    rw [natDigits]
    simp
  | succ k ih =>
    intro n hn
    rw [natDigits]
    split
    · simp
    · next h =>
      have hdiv : n / 10 < 10 ^ k := by
        rw [Nat.div_lt_iff_lt_mul (by omega)]
        calc n < 10 ^ (k + 1) := hn
        _ = 10 ^ k * 10 := by ring
      have := ih (n / 10) hdiv
      rw [List.length_append]
      have hk : 1 ≤ k := by
        by_contra hk0
        push_neg at hk0
        interval_cases k
        simp at hn
        omega
      simp only [List.length_singleton]
      omega

theorem strftimeYmd_facts (d : Date) (hy : d.year ≤ 9999) (hm : d.month ≤ 99)
    (hd : d.day ≤ 99) :
    utf8Len (strftimeYmd d) ≤ 10 ∧ (∀ c ∈ strftimeYmd d, c.toNat < 128) ∧
      strftimeYmd d ≠ [] := by
  have hylen := natDigits_length_le 4 d.year (by omega)
  have hmlen := natDigits_length_le 2 d.month (by omega)
  have hdlen := natDigits_length_le 2 d.day (by omega)
  obtain ⟨hy1, hy2⟩ := natDigits_ascii d.year
  obtain ⟨hm1, hm2⟩ := natDigits_ascii d.month
  obtain ⟨hd1, hd2⟩ := natDigits_ascii d.day
  have hpad : ∀ (w : Nat) (s : Str), utf8Len (padZeroTo w s) = (w - s.length) + utf8Len s := by
    intro w s
    rw [padZeroTo, utf8Len_append, utf8Len_replicate]
    simp [show ('0' : Char).utf8Size = 1 from by decide]
  refine ⟨?_, ?_, ?_⟩
  · rw [strftimeYmd, utf8Len_append, utf8Len_append, utf8Len_append, utf8Len_append,
      hpad, hpad, hpad, hy1, hm1, hd1]
    have hdash : utf8Len "-".data = 1 := by decide
    rw [hdash]
    omega
  · intro c hc
    rw [strftimeYmd] at hc
    have hpadc : ∀ (w : Nat) (s : Str), (∀ x ∈ s, x.toNat < 128) → c ∈ padZeroTo w s →
        c.toNat < 128 := by
      intro w s hs hcp
      rcases List.mem_append.mp hcp with h2 | h2
      · rw [List.eq_of_mem_replicate h2]
        decide
      · exact hs c h2
    have hdashc : c ∈ "-".data → c.toNat < 128 := by
      intro h2
      rw [List.mem_singleton.mp h2]
      decide
    rcases List.mem_append.mp hc with h2 | h2
    · rcases List.mem_append.mp h2 with h3 | h3
      · rcases List.mem_append.mp h3 with h4 | h4
        · rcases List.mem_append.mp h4 with h5 | h5
          · exact hpadc 4 _ hy2 h5
          · exact hdashc h5
        · exact hpadc 2 _ hm2 h4
      · exact hdashc h3
    · exact hpadc 2 _ hd2 h2
  · rw [strftimeYmd]
    intro hnil
    rcases List.append_eq_nil.mp hnil with ⟨h1, -⟩
    rcases List.append_eq_nil.mp h1 with ⟨h2, -⟩
    rcases List.append_eq_nil.mp h2 with ⟨h3, -⟩
    rcases List.append_eq_nil.mp h3 with ⟨-, h4⟩
    exact absurd h4 (by decide)

/-- An occurrence of a nonempty `m` in `(a ++ b) ++ c` with `b` nonempty lies in
`a`, lies in `c`, or uses a character of `b`. -/
theorem strContains_append_middle {m : Str} :
    ∀ (b a c : Str), m ≠ [] → b ≠ [] → strContains (a ++ b ++ c) m = true →
      strContains a m = true ∨ strContains c m = true ∨ ∃ x ∈ b, x ∈ m := by
  intro b
  induction b with
  | nil => intro a c _ hb; exact absurd rfl hb
  | cons x b2 ih =>
    intro a c hm _ hcont
    have hshape : a ++ (x :: b2) ++ c = a ++ x :: (b2 ++ c) := by simp
    rw [hshape] at hcont
    rcases strContains_append_cons_split hcont with h | h | h
    · exact Or.inl h
    · cases hb2 : b2 with
      | nil =>
        rw [hb2] at h
        exact Or.inr (Or.inl h)
      | cons y b3 =>
        subst hb2
        have h0 : strContains (([] : Str) ++ (y :: b3) ++ c) m = true := by
          simpa using h
        rcases ih [] c hm (List.cons_ne_nil _ _) h0 with h2 | h2 | h2
        · cases m with
          | nil => exact absurd rfl hm
          | cons z zs => cases h2
        · exact Or.inr (Or.inl h2)
        · obtain ⟨z, hz1, hz2⟩ := h2
          exact Or.inr (Or.inr ⟨z, List.mem_cons_of_mem _ hz1, hz2⟩)
    · exact Or.inr (Or.inr ⟨x, List.mem_cons_self _ _, h⟩)

/-! The daily summary message (wecom_notifier.py:214-226). -/

/-- The joined `lines` of `_format_daily_summary_message` (wecom_notifier.py:218-225). -/
def dailySummaryLines (report_date : Date) (summary : Str) : Str :=
  pyJoin "\n".data
    ["📝 **AI智能总结 & 业务价值分析**".data,
     "\n📅 ".data ++ strftimeYmd report_date,
     "\n---\n".data,
     prepare_summary_content summary,
     "\n---\n⏰ 由GitHub-Trend-Bot自动推送".data]

/-- `WeComNotifier._format_daily_summary_message` (wecom_notifier.py:214-226). -/
def format_daily_summary_message (report_date : Date) (summary : Str) (for_push : Bool) :
    Str :=
  if for_push then fit_markdown_limit (dailySummaryLines report_date summary)
  else dailySummaryLines report_date summary

/-- C10: at the notifier boundary a blank summary becomes the fixed placeholder
`（生成总结失败）`, and the pushed summary message is exactly the fixed frame around
that placeholder — containing no batch fallback: neither the business-value
heading nor its bullet section appear. -/
theorem C10_blank_summary_placeholder (d : Date) (s : Str)
    (hblank : pyStrip s = []) (hy : d.year ≤ 9999) (hm : d.month ≤ 99) (hd : d.day ≤ 99) :
    prepare_summary_content s = "（生成总结失败）".data ∧
    format_daily_summary_message d s true =
      "📝 **AI智能总结 & 业务价值分析**\n\n📅 ".data ++ strftimeYmd d ++
        "\n\n---\n\n（生成总结失败）\n\n---\n⏰ 由GitHub-Trend-Bot自动推送".data ∧
    strContains (format_daily_summary_message d s true) "搜狐业务价值分析".data = false ∧
    strContains (format_daily_summary_message d s true) "搜索引擎".data = false := by
  obtain ⟨hX1, hX2, hX3⟩ := strftimeYmd_facts d hy hm hd
  have hbase : summaryContentBase s = "（生成总结失败）".data := by
    rw [summaryContentBase, if_pos]
    rw [hblank]
    simp
  have hprep : prepare_summary_content s = "（生成总结失败）".data := by
    rw [prepare_summary_content, hbase, if_pos (by decide)]
  have hjoin : dailySummaryLines d s =
      "📝 **AI智能总结 & 业务价值分析**\n\n📅 ".data ++ strftimeYmd d ++
        "\n\n---\n\n（生成总结失败）\n\n---\n⏰ 由GitHub-Trend-Bot自动推送".data := by
    rw [dailySummaryLines, hprep]
    have hexp : pyJoin "\n".data
        ["📝 **AI智能总结 & 业务价值分析**".data,
         "\n📅 ".data ++ strftimeYmd d,
         "\n---\n".data,
         "（生成总结失败）".data,
         "\n---\n⏰ 由GitHub-Trend-Bot自动推送".data] =
        ("📝 **AI智能总结 & 业务价值分析**".data ++ "\n".data) ++
          ((("\n📅 ".data ++ strftimeYmd d) ++ "\n".data) ++
            (("\n---\n".data ++ "\n".data) ++
              (("（生成总结失败）".data ++ "\n".data) ++
                "\n---\n⏰ 由GitHub-Trend-Bot自动推送".data))) := rfl
    have hL1 : "📝 **AI智能总结 & 业务价值分析**\n\n📅 ".data =
        "📝 **AI智能总结 & 业务价值分析**".data ++ "\n".data ++ "\n📅 ".data := by decide
    have hL2 : "\n\n---\n\n（生成总结失败）\n\n---\n⏰ 由GitHub-Trend-Bot自动推送".data =
        "\n".data ++ "\n---\n".data ++ "\n".data ++ "（生成总结失败）".data ++ "\n".data ++
          "\n---\n⏰ 由GitHub-Trend-Bot自动推送".data := by decide
    rw [hexp, hL1, hL2]
    simp
  have hbytes : utf8Len (dailySummaryLines d s) ≤ 3800 := by
    rw [hjoin, utf8Len_append, utf8Len_append]
    have h1 : utf8Len "📝 **AI智能总结 & 业务价值分析**\n\n📅 ".data ≤ 100 := by decide
    have h2 :
        utf8Len "\n\n---\n\n（生成总结失败）\n\n---\n⏰ 由GitHub-Trend-Bot自动推送".data ≤
          100 := by decide
    omega
  have hfmt : format_daily_summary_message d s true =
      "📝 **AI智能总结 & 业务价值分析**\n\n📅 ".data ++ strftimeYmd d ++
        "\n\n---\n\n（生成总结失败）\n\n---\n⏰ 由GitHub-Trend-Bot自动推送".data := by
    rw [format_daily_summary_message, if_pos rfl, fit_markdown_limit_id _ hbytes, hjoin]
  have hnone : ∀ mrk : Str, mrk ≠ [] → (∀ x ∈ mrk, 127 < x.toNat) →
      strContains "📝 **AI智能总结 & 业务价值分析**\n\n📅 ".data mrk = false →
      strContains "\n\n---\n\n（生成总结失败）\n\n---\n⏰ 由GitHub-Trend-Bot自动推送".data
        mrk = false →
      strContains (format_daily_summary_message d s true) mrk = false := by
    intro mrk hmne hwide hA hB
    rw [hfmt]
    by_contra hcon
    rw [Bool.not_eq_false] at hcon
    rcases strContains_append_middle (strftimeYmd d) _ _ hmne hX3 hcon with h | h | h
    · rw [hA] at h; cases h
    · rw [hB] at h; cases h
    · obtain ⟨x, hx1, hx2⟩ := h
      have := hX2 x hx1
      have := hwide x hx2
      omega
  refine ⟨hprep, hfmt, ?_, ?_⟩
  · exact hnone _ (by decide) (by decide) (by decide) (by decide)
  · exact hnone _ (by decide) (by decide) (by decide) (by decide)

/-- C10 witness: the placeholder framing evaluated on a concrete date and a
whitespace-only summary. -/
theorem C10_blank_summary_placeholder_witness :
    prepare_summary_content "  \n ".data = "（生成总结失败）".data ∧
    format_daily_summary_message ⟨2026, 2, 12⟩ "  \n ".data true =
      "📝 **AI智能总结 & 业务价值分析**\n\n📅 ".data ++ strftimeYmd ⟨2026, 2, 12⟩ ++
        "\n\n---\n\n（生成总结失败）\n\n---\n⏰ 由GitHub-Trend-Bot自动推送".data := by
  have h := C10_blank_summary_placeholder ⟨2026, 2, 12⟩ "  \n ".data (by decide)
    (by norm_num) (by norm_num) (by norm_num)
  exact ⟨h.1, h.2.1⟩

/-! Weekly summary-section normalization (weekly_reporter.py), for comparison with
the daily composer. -/

/-- Weekly fallback template before the inserted titles (weekly_reporter.py:226-227). -/
def weeklyFallbackHead : Str :=
  "## 本周趋势总结\n\n本周热点主要集中在 Agent、LLM 应用与工程工具链，代表项目包括：".data

/-- Weekly fallback template after the inserted titles (weekly_reporter.py:227-231). -/
def weeklyFallbackTail : Str :=
  "。\n\n🚀 **搜狐业务价值分析**\n\n- 搜索引擎：优先验证检索增强、结果摘要与结构化信息抽取。\n- 推荐系统：可用于内容标签补全、冷启动特征生成与重排优化。\n- AI基础设施：建议推进统一模型网关、推理成本治理与多模型容灾。".data

/-- `WeeklyReporter._build_fallback_summary` (weekly_reporter.py:223-232), over the
projects' repo names. -/
def weekly_build_fallback_summary (repo_names : List Str) : Str :=
  weeklyFallbackHead ++
    (if (pyJoin "、".data (repo_names.take 3)).isEmpty then "本周上榜项目".data
     else pyJoin "、".data (repo_names.take 3)) ++
    weeklyFallbackTail

/-- First normalization step of `_ensure_summary_sections` (weekly_reporter.py:210-211):
prepend the trend heading when missing. -/
def weeklyEnsureStep1 (content : Str) : Str :=
  if strContains content "本周趋势总结".data then content
  else "## 本周趋势总结\n\n".data ++ content

/-- `WeeklyReporter._ensure_summary_sections` (weekly_reporter.py:204-221). -/
def ensure_summary_sections (summary_text : Str) (repo_names : List Str) : Str :=
  if (pyStrip summary_text).isEmpty then weekly_build_fallback_summary repo_names
  else
    if strContains (weeklyEnsureStep1 (pyStrip summary_text)) "搜狐业务价值分析".data then
      weeklyEnsureStep1 (pyStrip summary_text)
    else
      weeklyEnsureStep1 (pyStrip summary_text) ++
        "\n\n🚀 **搜狐业务价值分析**\n\n- 暂未识别到直接可落地的业务价值，建议持续观察。".data

/-- C8 counterexample: accepted daily free text that contains neither required
marker is returned exactly as-is by the daily composer and by the notifier's
summary-content preparation — no markers are injected around it. -/
theorem C8_no_injection_counterexample :
    generate_daily_summary (some "hello world".data)
        [(⟨"r".data, [], [], [], 1, 1, 1⟩, ⟨true, "x".data⟩)] = "hello world".data ∧
    prepare_summary_content "hello world".data = "hello world".data ∧
    strContains "hello world".data "每日趋势总结".data = false ∧
    strContains "hello world".data "业务价值分析".data = false := by
  exact ⟨by decide, by decide, by decide, by decide⟩

/-- C8 (amended): the DAILY composer performs no marker injection — accepted free
text is used as-is by `generate_daily_summary` and `_prepare_summary_content`
(only the fallback summary carries both markers); marker injection around accepted
content exists only in the WEEKLY reporter's `_ensure_summary_sections`, whose
result always contains both weekly markers and leaves text already containing both
markers unchanged. -/
theorem C8_summary_markers (text : Str) (projects : List (TrendingProject × FilterResult))
    (repo_names : List Str) :
    (projects ≠ [] → is_invalid_summary (pyStrip text) = false →
      generate_daily_summary (some text) projects = pyStrip text) ∧
    ((pyStrip text).isEmpty = false → utf8Len (pyStrip text) ≤ 2600 →
      prepare_summary_content text = pyStrip text) ∧
    strContains (ensure_summary_sections text repo_names) "本周趋势总结".data = true ∧
    strContains (ensure_summary_sections text repo_names) "搜狐业务价值分析".data = true ∧
    ((pyStrip text).isEmpty = false →
      strContains (pyStrip text) "本周趋势总结".data = true →
      strContains (pyStrip text) "搜狐业务价值分析".data = true →
      ensure_summary_sections text repo_names = pyStrip text) := by
  refine ⟨?_, ?_, ?_, ?_, ?_⟩
  · intro hne hvalid
    have hiempty : projects.isEmpty = false := by
      cases projects with
      | nil => exact absurd rfl hne
      | cons p t => rfl
    simp [generate_daily_summary, hiempty, hvalid]
  · intro hstrip hlen
    have ht : text.isEmpty = false := by
      cases text with
      | nil => simp [pyStrip] at hstrip
      | cons c t => rfl
    have hbase : summaryContentBase text = pyStrip text := by
      rw [summaryContentBase, if_neg]
      simp [ht, hstrip]
    rw [prepare_summary_content, hbase, if_pos]
    simp only [SUMMARY_CONTENT_LIMIT]
    omega
  · rw [ensure_summary_sections]
    split
    · rw [weekly_build_fallback_summary]
      exact strContains_append_left _ (strContains_append_left _
        (by decide : strContains weeklyFallbackHead "本周趋势总结".data = true))
    · have hstep : strContains (weeklyEnsureStep1 (pyStrip text)) "本周趋势总结".data =
          true := by
        rw [weeklyEnsureStep1]
        split
        · next h2 => exact h2
        · exact strContains_append_left _ (by decide)
      split
      · exact hstep
      · exact strContains_append_left _ hstep
  · rw [ensure_summary_sections]
    split
    · rw [weekly_build_fallback_summary]
      exact strContains_append_right _ (by decide)
    · split
      · next h2 => exact h2
      · exact strContains_append_right _ (by decide)
  · intro hstrip h1 h2
    have hstep : weeklyEnsureStep1 (pyStrip text) = pyStrip text := by
      rw [weeklyEnsureStep1, if_pos h1]
    rw [ensure_summary_sections, if_neg (by simp [hstrip]), hstep, if_pos h2]

/-- C8 witness: the amended statement on concrete inputs — plain accepted daily
text passes through unchanged, and the weekly normalizer injects both markers. -/
theorem C8_summary_markers_witness :
    generate_daily_summary (some "a plain trends note".data)
        [(⟨"r".data, [], [], [], 1, 1, 1⟩, ⟨true, "x".data⟩)] =
      pyStrip "a plain trends note".data ∧
    strContains (ensure_summary_sections "a plain trends note".data [])
      "本周趋势总结".data = true ∧
    strContains (ensure_summary_sections "a plain trends note".data [])
      "搜狐业务价值分析".data = true := by
  have h := C8_summary_markers "a plain trends note".data
    [(⟨"r".data, [], [], [], 1, 1, 1⟩, ⟨true, "x".data⟩)] []
  exact ⟨h.1 (List.cons_ne_nil _ _) (by decide), h.2.2.1, h.2.2.2.1⟩

/-! The daily digest message (wecom_notifier.py:175-212) and the split push. -/

/-- Digit grouping of `f"{n:,}"`: commas every three digits from the right. -/
def group3 (ds : Str) : Str :=
  if _h : ds.length ≤ 3 then ds
  else group3 (ds.take (ds.length - 3)) ++ ',' :: ds.drop (ds.length - 3)
termination_by ds.length
decreasing_by
  simp [List.length_take]
  omega

/-- Thousands-separated rendering `f"{n:,}"` of the star count. -/
def commaFormat (n : Int) : Str :=
  if n < 0 then '-' :: group3 (natDigits n.natAbs) else group3 (natDigits n.natAbs)

/-- `f"+{stars_growth}" if stars_growth > 0 else ""` (wecom_notifier.py:195). -/
def growthStr (g : Int) : Str := if 0 < g then '+' :: natDigits g.natAbs else []

/-- The rank-marker glyphs (wecom_notifier.py:189). -/
def emojiList : List Str :=
  ["1️⃣".data, "2️⃣".data, "3️⃣".data, "4️⃣".data, "5️⃣".data,
   "6️⃣".data, "7️⃣".data, "8️⃣".data, "9️⃣".data, "🔟".data]

/-- `emojis[idx] if idx < len(emojis) else f"{idx+1}."` (wecom_notifier.py:192). -/
def emojiFor (idx : Nat) : Str :=
  match emojiList[idx]? with
  | some e => e
  | none => natDigits (idx + 1) ++ ".".data

/-- The headline of one project block (wecom_notifier.py:203). -/
def projectLine1 (idx : Nat) (project : TrendingProject) : Str :=
  "\n".data ++ emojiFor idx ++ " **".data ++ project.repo_name ++ "** ⭐ ".data ++
    commaFormat project.stars ++ " (".data ++ growthStr project.stars_growth ++ ")".data

/-- The five lines appended per project (wecom_notifier.py:202-208). -/
def projectLines (for_push : Bool) (idx : Nat) (project : TrendingProject)
    (result : FilterResult) : List Str :=
  [projectLine1 idx project,
   "🏷 ".data ++ project.language,
   "📝 ".data ++ truncate_text project.description (if for_push then 80 else 100),
   "💡 AI亮点：".data ++
     truncate_text (normalize_ai_highlight result.reason project.description)
       (if for_push then 120 else 1200),
   "🔗 [查看项目](".data ++ project.url ++ ")\n".data]

/-- The `lines` list of `_format_daily_top_message` (wecom_notifier.py:182-210). -/
def dailyTopLines (pwr : List (TrendingProject × FilterResult)) (report_date : Date)
    (for_push : Bool) : List Str :=
  ["🔥 **今日GitHub AI趋势 Top ".data ++ natDigits pwr.length ++ "**".data,
   "\n📅 ".data ++ strftimeYmd report_date,
   "\n---\n".data] ++
  (pwr.enum.map fun ip => projectLines for_push ip.1 ip.2.1 ip.2.2).flatten ++
  ["\n---\n⏰ 由GitHub-Trend-Bot自动推送".data]

/-- `WeComNotifier._format_daily_top_message` (wecom_notifier.py:175-212). -/
def format_daily_top_message (pwr : List (TrendingProject × FilterResult))
    (report_date : Date) (for_push : Bool) : Str :=
  if for_push then
    fit_markdown_limit (pyJoin "\n".data (dailyTopLines pwr report_date for_push))
  else pyJoin "\n".data (dailyTopLines pwr report_date for_push)

/-- `WeComNotifier.format_daily_push_messages` (wecom_notifier.py:90-99). -/
def format_daily_push_messages (pwr : List (TrendingProject × FilterResult))
    (report_date : Date) (summary : Str) : Str × Str :=
  (format_daily_top_message pwr report_date true,
   format_daily_summary_message report_date summary true)

/-- `WeComNotifier.send_daily_report_split` (wecom_notifier.py:121-139); the fixed
inter-message sleep has no observable effect on the transcript model. -/
def send_daily_report_split (st : SendState) (pwr : List (TrendingProject × FilterResult))
    (report_date : Date) (summary : Str) : Bool × SendState :=
  if (send_markdown st (format_daily_push_messages pwr report_date summary).1).1 then
    send_markdown (send_markdown st (format_daily_push_messages pwr report_date summary).1).2
      (format_daily_push_messages pwr report_date summary).2
  else (false, (send_markdown st (format_daily_push_messages pwr report_date summary).1).2)

/-! Helper lemmas for the split-push scenario. -/

/-- Outcome of the one retry, as a function of the remaining transcript. -/
def retryVerdict : List ApiResp → Bool
  | .api c2 :: _ => c2 == 0
  | _ => false

theorem send_markdown_reject_retry (st : SendState) (content : Str) (c : Int)
    (rest : List ApiResp) (hresp : st.responses = .api c :: rest) (hc : c ≠ 0)
    (hgt : 2500 < utf8Len (fit_markdown_limit content)) :
    send_markdown st content =
      (retryVerdict rest,
       ⟨rest.tail,
        st.sent ++ [mkPayload (fit_markdown_limit content),
                    mkPayload (shrink_for_retry (fit_markdown_limit content))]⟩) := by
  have hbeq : (c == 0) = false := by simpa using hc
  have hne := shrink_for_retry_ne (fit_markdown_limit content) (by exact_mod_cast hgt)
  cases rest with
  | nil => simp [send_markdown, send_markdown_once, hresp, hbeq, hne, retryVerdict]
  | cons r rest2 =>
    cases r <;> simp [send_markdown, send_markdown_once, hresp, hbeq, hne, retryVerdict]

theorem fit_markdown_limit_lower (content : Str) (h : 3800 < utf8Len content) :
    3797 ≤ utf8Len (fit_markdown_limit content) := by
  unfold fit_markdown_limit
  split
  · next h2 => simp only [PUSH_MARKDOWN_LIMIT] at h2; omega
  · split
    · next h2 =>
      rw [utf8Len_fitTruncSuffix] at h2
      simp only [PUSH_MARKDOWN_LIMIT] at h2
      omega
    · next h2 =>
      rw [utf8Len_append]
      have hlow := truncate_by_bytes_lower content
        (PUSH_MARKDOWN_LIMIT - (utf8Len fitTruncSuffix : Int))
        (by rw [utf8Len_fitTruncSuffix]; simp [PUSH_MARKDOWN_LIMIT])
        (by rw [utf8Len_fitTruncSuffix]; simp only [PUSH_MARKDOWN_LIMIT]; omega)
      rw [utf8Len_fitTruncSuffix] at hlow ⊢
      simp only [PUSH_MARKDOWN_LIMIT] at hlow ⊢
      omega

theorem utf8Len_le_pyJoin (sep : Str) {x : Str} :
    ∀ ls, x ∈ ls → utf8Len x ≤ utf8Len (pyJoin sep ls) := by
  intro ls
  induction ls with
  | nil => intro h; cases h
  | cons s rest ih =>
    intro h
    cases rest with
    | nil =>
      rw [List.mem_singleton] at h
      rw [h]
      exact le_rfl
    | cons s2 rest2 =>
      show utf8Len x ≤ utf8Len (s ++ sep ++ pyJoin sep (s2 :: rest2))
      rw [utf8Len_append, utf8Len_append]
      rcases List.mem_cons.mp h with h2 | h2
      · rw [h2]; omega
      · have := ih h2; omega

theorem exists_mem_enumFrom {α : Type _} {x : α} :
    ∀ (l : List α) (k : Nat), x ∈ l → ∃ i, (i, x) ∈ List.enumFrom k l := by
  intro l
  induction l with
  | nil => intro k h; cases h
  | cons y t ih =>
    intro k h
    rcases List.mem_cons.mp h with h2 | h2
    · exact ⟨k, by rw [h2]; simp [List.enumFrom]⟩
    · obtain ⟨i, hi⟩ := ih (k + 1) h2
      refine ⟨i, ?_⟩
      simp only [List.enumFrom, List.mem_cons]
      exact Or.inr hi

/-- The repo name of any listed project contributes its full byte length to the
un-fitted digest. -/
theorem repo_le_dailyTop (pwr : List (TrendingProject × FilterResult)) (d : Date)
    (fp : Bool) (p : TrendingProject) (r : FilterResult) (hmem : (p, r) ∈ pwr) :
    utf8Len p.repo_name ≤ utf8Len (pyJoin "\n".data (dailyTopLines pwr d fp)) := by
  obtain ⟨i, hi⟩ := exists_mem_enumFrom pwr 0 hmem
  have hblock : projectLines fp i p r ∈
      (pwr.enum.map fun ip => projectLines fp ip.1 ip.2.1 ip.2.2) := by
    exact List.mem_map.mpr ⟨(i, (p, r)), hi, rfl⟩
  have hline : projectLine1 i p ∈
      (pwr.enum.map fun ip => projectLines fp ip.1 ip.2.1 ip.2.2).flatten :=
    List.mem_flatten.mpr ⟨projectLines fp i p r, hblock, List.mem_cons_self _ _⟩
  have hmemline : projectLine1 i p ∈ dailyTopLines pwr d fp := by
    rw [dailyTopLines]
    exact List.mem_append.mpr (Or.inl (List.mem_append.mpr (Or.inr hline)))
  have h1 := utf8Len_le_pyJoin "\n".data _ hmemline
  have h2 : utf8Len p.repo_name ≤ utf8Len (projectLine1 i p) := by
    rw [projectLine1]
    simp only [utf8Len_append]
    omega
  omega

/-- C3: the split push never issues the summary send when the digest send reports
failure, returns success exactly when both sends succeed, and in the scenario
where the digest is rejected and its single shrink-retry also fails, exactly two
transport payloads are posted in total and the summary message is never attempted. -/
theorem C3_split_push_ordering (st : SendState)
    (pwr : List (TrendingProject × FilterResult)) (report_date : Date) (summary : Str) :
    ((send_markdown st (format_daily_push_messages pwr report_date summary).1).1 = false →
      send_daily_report_split st pwr report_date summary =
        (false, (send_markdown st (format_daily_push_messages pwr report_date summary).1).2)) ∧
    ((send_daily_report_split st pwr report_date summary).1 = true ↔
      ((send_markdown st (format_daily_push_messages pwr report_date summary).1).1 = true ∧
        (send_markdown
          (send_markdown st (format_daily_push_messages pwr report_date summary).1).2
          (format_daily_push_messages pwr report_date summary).2).1 = true)) ∧
    (∀ c c2 rest, st.responses = .api c :: .api c2 :: rest → c ≠ 0 → c2 ≠ 0 →
      2500 <
        utf8Len (fit_markdown_limit (format_daily_push_messages pwr report_date summary).1) →
      (send_daily_report_split st pwr report_date summary).1 = false ∧
      (send_daily_report_split st pwr report_date summary).2.sent =
        st.sent ++
          [mkPayload
            (fit_markdown_limit (format_daily_push_messages pwr report_date summary).1),
           mkPayload (shrink_for_retry
            (fit_markdown_limit (format_daily_push_messages pwr report_date summary).1))]) := by
  refine ⟨?_, ?_, ?_⟩
  · intro h
    rw [send_daily_report_split, if_neg (by simp [h])]
  · rw [send_daily_report_split]
    by_cases h : (send_markdown st (format_daily_push_messages pwr report_date summary).1).1 =
      true
    · rw [if_pos h]
      simp [h]
    · rw [if_neg h]
      simp [h]
  · intro c c2 rest hresp hc hc2 hgt
    have hsend := send_markdown_reject_retry st
      (format_daily_push_messages pwr report_date summary).1 c (.api c2 :: rest) hresp hc hgt
    have hfalse :
        (send_markdown st (format_daily_push_messages pwr report_date summary).1).1 = false := by
      rw [hsend]
      show retryVerdict (.api c2 :: rest) = false
      simpa [retryVerdict] using hc2
    constructor
    · rw [send_daily_report_split, if_neg (by simp [hfalse])]
    · rw [send_daily_report_split, if_neg (by simp [hfalse]), hsend]

/-- Witness project with a 4000-byte repo name, forcing an oversized digest. -/
def bigRepoProject : TrendingProject :=
  ⟨List.replicate 4000 'a', "d".data, "Py".data, "u".data, 10, 5, 1⟩

/-- Witness batch holding the oversized project. -/
def bigPwr : List (TrendingProject × FilterResult) := [(bigRepoProject, ⟨true, "rsn".data⟩)]

/-- C3 witness: with two rejection responses and an oversized digest, the split
push fails after exactly two transport payloads. -/
theorem C3_split_push_ordering_witness :
    (send_daily_report_split ⟨[.api 45002, .api 45002], []⟩ bigPwr ⟨2026, 2, 12⟩ "s".data).1 =
      false ∧
    (send_daily_report_split ⟨[.api 45002, .api 45002], []⟩ bigPwr ⟨2026, 2, 12⟩
      "s".data).2.sent.length = 2 := by
  have hrepo : utf8Len bigRepoProject.repo_name = 4000 := by
    show utf8Len (List.replicate 4000 'a') = 4000
    rw [utf8Len_replicate]
    rfl
  have hraw : 3800 < utf8Len (pyJoin "\n".data (dailyTopLines bigPwr ⟨2026, 2, 12⟩ true)) := by
    have hle := repo_le_dailyTop bigPwr ⟨2026, 2, 12⟩ true bigRepoProject ⟨true, "rsn".data⟩
      (List.mem_singleton.mpr rfl)
    omega
  have heq : (format_daily_push_messages bigPwr ⟨2026, 2, 12⟩ "s".data).1 =
      fit_markdown_limit (pyJoin "\n".data (dailyTopLines bigPwr ⟨2026, 2, 12⟩ true)) := by
    rw [format_daily_push_messages]
    show format_daily_top_message bigPwr ⟨2026, 2, 12⟩ true = _
    rw [format_daily_top_message, if_pos rfl]
  have hgt : 2500 <
      utf8Len (fit_markdown_limit (format_daily_push_messages bigPwr ⟨2026, 2, 12⟩
        "s".data).1) := by
    rw [heq, fit_markdown_limit_id _ (fit_markdown_limit_le _)]
    have := fit_markdown_limit_lower _ hraw
    omega
  obtain ⟨h1, h2⟩ := (C3_split_push_ordering ⟨[.api 45002, .api 45002], []⟩ bigPwr
    ⟨2026, 2, 12⟩ "s".data).2.2 45002 45002 [] rfl (by norm_num) (by norm_num) hgt
  exact ⟨h1, by rw [h2]; simp⟩

end GithubTrend
